import Mathlib

/-!
# Host resolution of `cmctl` (package `cm`, file `cm/filter.go`)

A shallow embedding of `CreateFilter`, `validateFilter`, `GetFilteredHosts` and
`calculateAndFillFinalHosts`, followed by the properties established about them.

Conventions of the embedding

* a Go `string` is a Lean `String`; a Go `[]string` is a `List String`
  (`len(xs) > 0` is `xs.length > 0`, a nil slice is `[]`);
* a Go `map[string]bool` that is only ever written with `true` and only read through
  `len` and the presence test `_, ok := m[k]` ("use boolean map as a set" in the source)
  is the `Finset String` of its keys;
* a Go `map[string]V` that is ranged over is the list of its entries, `List (String × V)`;
  a real Go map has pairwise distinct keys (`GoMap.WF`);
* the two maps `hosts` and `finalHosts` that `GetFilteredHosts` allocates and hands to
  `calculateAndFillFinalHosts` by reference are threaded explicitly as a `Maps` state;
* the remote fetches `c.ListHosts()` and `c.GetDeployment()` are answered by a `Remote`
  record, and every call is recorded in the `fetches` trace of the `Outcome`;
* a run-time panic (`filter.Services[0]` on an empty slice) is the result `none`.
-/

namespace CM

/-! ## Data model -/

/-- Modelled from the spec: the `Host` record, whose declaration is not part of the
sources at hand. The resolver reads exactly the two fields `HostName` and `IPAddress`. -/
structure Host where
  HostName : String
  IPAddress : String
deriving DecidableEq

/-- The struct `Filter` of `cm/filter.go`. The defaults are Go's zero value `Filter{}`. -/
structure Filter where
  Hosts : List String := []
  Clusters : List String := []
  Services : List String := []
  Roles : List String := []
  Server : Bool := false
deriving DecidableEq

/-- Modelled from the spec: the `Inventory` record (cluster name, member hosts,
`ServiceHostsMap`, `ServiceRoleHostsMap`), whose declaration is not part of the sources at
hand. The two maps are given by their entries. The defaults are Go's zero value
`Inventory{}`. -/
structure Inventory where
  ClusterName : String := ""
  Hosts : List Host := []
  ServiceHostsMap : List (String × List String) := []
  ServiceRoleHostsMap : List (String × List (String × List String)) := []
deriving DecidableEq

/-- Modelled from the spec: the `CMServer` record, whose declaration is not part of the
sources at hand. The resolver reads only `Hostname`, the controller's own address. -/
structure CMServer where
  Hostname : String
deriving DecidableEq

/-- The remote calls a resolution can make. -/
inductive Fetch where
  | ListHosts
  | GetDeployment
deriving DecidableEq

/-- What the collaborators of `GetFilteredHosts` answer: the two fetches of
`cm/actions.go` (`ListHosts`, `GetDeployment`) and the two inventory builders, which are
not part of the sources at hand and are taken as given. -/
structure Remote (Deployment : Type) where
  ListHosts : List Host
  GetDeployment : Deployment
  GetInventoryWithHostsForCluster : Inventory → String → List Host → Inventory
  CreateInventoriesFromDeploymentsAndHosts : Deployment → List Host → List Inventory

/-- The two maps `hosts` (membership set) and `finalHosts` (accumulator of addresses)
shared by `GetFilteredHosts` and `calculateAndFillFinalHosts`. -/
structure Maps where
  hosts : Finset String
  finalHosts : Finset String

/-- What a call of `GetFilteredHosts` does: the fetches it made, in order, and the map it
returned (`none` when it panicked instead of returning). -/
structure Outcome where
  fetches : List Fetch
  result : Option (Finset String)

/-! ## Go maps given by their entries -/

namespace GoMap

/-- The keys of a real Go map are pairwise distinct. -/
def WF {V : Type} (m : List (String × V)) : Prop :=
  (m.map Prod.fst).Nodup

instance {V : Type} (m : List (String × V)) : Decidable (WF m) :=
  inferInstanceAs (Decidable (m.map Prod.fst).Nodup)

/-- The index expression `m[k]`: the value stored under `k`, the zero value of `V` when
the key is absent. -/
def index {V : Type} (m : List (String × V)) (k : String) (zero : V) : V :=
  (m.lookup k).getD zero

end GoMap

/-! ## `strings.Split` -/

/-- The pieces of `s` between the occurrences of `sep`, working on the characters. -/
def splitChars (sep : Char) : List Char → List (List Char)
  | [] => [[]]
  | c :: cs =>
    if c = sep then [] :: splitChars sep cs
    else
      match splitChars sep cs with
      | [] => [[c]]
      | p :: ps => (c :: p) :: ps

/-- Go's `strings.Split(s, sep)` for a separator of one character: the substrings of `s`
between the separators, in order. -/
def Split (s : String) (sep : Char) : List String :=
  (splitChars sep s.data).map String.mk

/-! ## `cm/filter.go` -/

/-- `CreateFilter` (filter.go, lines 19-39). Go's `len` of a string is its length in
bytes, `String.utf8ByteSize`. -/
def CreateFilter (clusterFilter serviceFilter rolesFilter hostFilter : String)
    (cmServer : Bool) : Filter :=
  let filter : Filter := {}
  let filter := if hostFilter.utf8ByteSize > 0 then
    { filter with Hosts := Split hostFilter ',' } else filter
  let filter := if clusterFilter.utf8ByteSize > 0 then
    { filter with Clusters := Split clusterFilter ',' } else filter
  let filter := if serviceFilter.utf8ByteSize > 0 then
    { filter with Services := Split serviceFilter ',' } else filter
  let filter := if rolesFilter.utf8ByteSize > 0 then
    { filter with Roles := Split rolesFilter ',' } else filter
  { filter with Server := cmServer }

/-- Modelled from the spec: the helper `SliceContains(str, slice)`, which is not part of
the sources at hand; it tells whether the name `str` "appears in" / "is present in" the
slice. -/
def SliceContains (str : String) (slice : List String) : Bool :=
  slice.contains str

/-- The inner loop of `calculateAndFillFinalHosts` (filter.go, lines 108-113): the flag
`containsHost` after ranging over `filteredHosts`. -/
def containsHost (filteredHosts : List String) (hostName : String) : Bool :=
  filteredHosts.foldl
    (fun containsHost filteredHost => if filteredHost = hostName then true else containsHost)
    false

/-- One iteration of the loop of `calculateAndFillFinalHosts` (filter.go, lines 106-130)
for the host `cmAgent`. -/
def fillHost (filter : Filter) (m : Maps) (cmAgent : Host) : Maps :=
  if filter.Hosts.length > 0 ∧ containsHost filter.Hosts cmAgent.HostName = false then
    m -- continue
  else if m.hosts.card > 0 then
    let m1 : Maps :=
      if cmAgent.HostName ∈ m.hosts then
        { m with finalHosts := insert cmAgent.IPAddress m.finalHosts }
      else m
    if cmAgent.IPAddress ∈ m1.hosts then
      { m1 with finalHosts := insert cmAgent.IPAddress m1.finalHosts }
    else m1
  else
    { m with finalHosts := insert cmAgent.IPAddress m.finalHosts }

/-- `calculateAndFillFinalHosts` (filter.go, lines 104-132). The source mutates the map
`finalHosts` in place; the embedding returns the state of both maps after the call. The two
maps are distinct objects, as they are at every call site. -/
def calculateAndFillFinalHosts (cmAgents : List Host) (filter : Filter) (m : Maps) : Maps :=
  cmAgents.foldl (fillHost filter) m

/-- The loop `for _, host := range ... { hosts[host] = true }` (filter.go, lines 72-74
and 90-92). -/
def addHosts (names : List String) (m : Maps) : Maps :=
  names.foldl (fun m host => { m with hosts := insert host m.hosts }) m

/-- One iteration of the loop over `filter.Clusters` (filter.go, lines 54-59). -/
def clusterStep {D : Type} (env : Remote D) (cmAgents : List Host) (filter : Filter)
    (m : Maps) (cluster : String) : Maps :=
  let inventory : Inventory := {}
  let inventory := env.GetInventoryWithHostsForCluster inventory cluster cmAgents
  let m := inventory.Hosts.foldl
    (fun m host => { m with hosts := insert host.HostName m.hosts }) m
  calculateAndFillFinalHosts cmAgents filter m

/-- One iteration of the loop over the inventories in the roles branch (filter.go, lines
66-76); `none` is the panic of `filter.Services[0]` on an empty slice. -/
def rolesStep (filter : Filter) (m : Maps) (inventory : Inventory) : Option Maps :=
  if filter.Clusters.length > 0 ∧ SliceContains inventory.ClusterName filter.Clusters = false
  then
    some m -- continue
  else
    match filter.Services[0]? with
    | none => none
    | some service =>
      let rolesHostsMap := GoMap.index inventory.ServiceRoleHostsMap service []
      some (rolesHostsMap.foldl
        (fun m entry => if SliceContains entry.1 filter.Roles then addHosts entry.2 m else m) m)

/-- One iteration of the loop over the inventories in the services branch (filter.go,
lines 84-94). -/
def servicesStep (filter : Filter) (m : Maps) (inventory : Inventory) : Maps :=
  if filter.Clusters.length > 0 ∧ SliceContains inventory.ClusterName filter.Clusters = false
  then
    m -- continue
  else
    let serviceHostsMap := inventory.ServiceHostsMap
    serviceHostsMap.foldl
      (fun m entry => if SliceContains entry.1 filter.Services then addHosts entry.2 m else m) m

/-- The loop over `filter.Clusters` in the clusters branch (filter.go, lines 53-60). -/
def clustersLoop {D : Type} (env : Remote D) (cmAgents : List Host) (filter : Filter)
    (m : Maps) : Maps :=
  filter.Clusters.foldl (clusterStep env cmAgents filter) m

/-- The loop over the inventories in the roles branch (filter.go, lines 65-77); `none` when
an iteration panics. -/
def rolesLoop (filter : Filter) (inventories : List Inventory) (m : Maps) : Option Maps :=
  inventories.foldlM (rolesStep filter) m

/-- The loop over the inventories in the services branch (filter.go, lines 83-95). -/
def servicesLoop (filter : Filter) (inventories : List Inventory) (m : Maps) : Maps :=
  inventories.foldl (servicesStep filter) m

/-- `GetFilteredHosts` (filter.go, lines 42-102). -/
def GetFilteredHosts {D : Type} (env : Remote D) (c : CMServer) (filter : Filter) : Outcome :=
  let m : Maps := { hosts := ∅, finalHosts := ∅ }
  if filter.Server then
    let m : Maps := { m with hosts := insert c.Hostname m.hosts }
    let m : Maps := { m with finalHosts := insert c.Hostname m.finalHosts }
    { fetches := [], result := some m.finalHosts }
  else if filter.Hosts.length > 0 then
    let cmAgents := env.ListHosts
    let m := calculateAndFillFinalHosts cmAgents filter m
    { fetches := [Fetch.ListHosts], result := some m.finalHosts }
  else if filter.Clusters.length > 0 then
    let cmAgents := env.ListHosts
    let m := clustersLoop env cmAgents filter m
    { fetches := [Fetch.ListHosts], result := some m.finalHosts }
  else if filter.Roles.length > 0 then
    let cmAgents := env.ListHosts
    let deployment := env.GetDeployment
    let inventories := env.CreateInventoriesFromDeploymentsAndHosts deployment cmAgents
    match rolesLoop filter inventories m with
    | none => { fetches := [Fetch.ListHosts, Fetch.GetDeployment], result := none }
    | some m =>
      let m := calculateAndFillFinalHosts cmAgents filter m
      { fetches := [Fetch.ListHosts, Fetch.GetDeployment], result := some m.finalHosts }
  else if filter.Services.length > 0 then
    let cmAgents := env.ListHosts
    let deployment := env.GetDeployment
    let inventories := env.CreateInventoriesFromDeploymentsAndHosts deployment cmAgents
    let m := servicesLoop filter inventories m
    let m := calculateAndFillFinalHosts cmAgents filter m
    { fetches := [Fetch.ListHosts, Fetch.GetDeployment], result := some m.finalHosts }
  else
    let cmAgents := env.ListHosts
    let m := calculateAndFillFinalHosts cmAgents filter m
    { fetches := [Fetch.ListHosts], result := some m.finalHosts }

/-- `validateFilter` (filter.go, lines 134-139): `Except.error msg` stands for printing
`msg` and terminating the process with exit status 1, `Except.ok ()` for returning. -/
def validateFilter (filter : Filter) : Except String Unit :=
  if filter.Roles.length > 0 ∧ filter.Services.length ≠ 1 then
    Except.error "Error: use exactly 1 service filter with roles filter!"
  else
    Except.ok ()

/-! ## The words of the specification -/

namespace Spec

/-- The condition of the final intersection step under which the address of the host `h`
is included: step (a) does not skip it, and the membership set is empty or holds its name or
its address. -/
def selects (filter : Filter) (hosts : Finset String) (h : Host) : Prop :=
  (filter.Hosts = [] ∨ h.HostName ∈ filter.Hosts) ∧
    (hosts = ∅ ∨ h.HostName ∈ hosts ∨ h.IPAddress ∈ hosts)

instance (filter : Filter) (hosts : Finset String) (h : Host) :
    Decidable (selects filter hosts h) :=
  inferInstanceAs (Decidable ((filter.Hosts = [] ∨ h.HostName ∈ filter.Hosts) ∧
    (hosts = ∅ ∨ h.HostName ∈ hosts ∨ h.IPAddress ∈ hosts)))

/-- The membership set of the clusters branch in the words of the specification: the
union, over all cluster names in `clusters`, of the member host names of that cluster. -/
def clustersMembership {D : Type} (env : Remote D) (cmAgents : List Host)
    (clusters : List String) : Finset String :=
  (clusters.flatMap fun cluster =>
    (env.GetInventoryWithHostsForCluster {} cluster cmAgents).Hosts.map Host.HostName).toFinset

/-- The membership set of the roles branch in the words of the specification: the union,
over all inventories and all roles `r` in `roles`, of `ServiceRoleHostsMap[s][r]`. -/
def rolesMembership (inventories : List Inventory) (s : String) (roles : List String) :
    Finset String :=
  (inventories.flatMap fun inventory =>
    roles.flatMap fun r =>
      GoMap.index (GoMap.index inventory.ServiceRoleHostsMap s []) r []).toFinset

end Spec

/-! ## Concrete topologies -/

namespace Scenario

/-- Host `h1` with address `10.0.0.1`. -/
def h1 : Host := { HostName := "h1", IPAddress := "10.0.0.1" }

/-- Host `h2` with address `10.0.0.2`. -/
def h2 : Host := { HostName := "h2", IPAddress := "10.0.0.2" }

/-- Host `h3` with address `10.0.0.3`. -/
def h3 : Host := { HostName := "h3", IPAddress := "10.0.0.3" }

/-- Host `h4` with address `10.0.0.4`. -/
def h4 : Host := { HostName := "h4", IPAddress := "10.0.0.4" }

/-- The controller. -/
def controller : CMServer := { Hostname := "cm.example.com" }

/-- Cluster `c1` with service `HDFS`: role `NAMENODE` on `h1`, role `DATANODE` on `h2`. -/
def inventoryC1 : Inventory :=
  { ClusterName := "c1"
    Hosts := [h1, h2]
    ServiceHostsMap := [("HDFS", ["h1", "h2"])]
    ServiceRoleHostsMap := [("HDFS", [("NAMENODE", ["h1"]), ("DATANODE", ["h2"])])] }

/-- Cluster membership of the first topology: `h1` and `h2` belong to `c1`. -/
def membersC1 (inventory : Inventory) (cluster : String) (cmAgents : List Host) : Inventory :=
  { inventory with
    ClusterName := cluster
    Hosts := cmAgents.filter fun h => cluster = "c1" ∧ h.HostName ∈ ["h1", "h2"] }

/-- First topology: one cluster `c1` with the hosts `h1`, `h2` and the service `HDFS`. -/
def remote : Remote Unit where
  ListHosts := [h1, h2]
  GetDeployment := ()
  GetInventoryWithHostsForCluster := membersC1
  CreateInventoriesFromDeploymentsAndHosts := fun _ _ => [inventoryC1]

/-- Cluster `c1` of the second topology: `HDFS` on `h1` and `h2`, `YARN` on `h3`. -/
def inventoryWide : Inventory :=
  { ClusterName := "c1"
    Hosts := [h1, h2, h3]
    ServiceHostsMap := [("HDFS", ["h1", "h2"]), ("YARN", ["h3"])]
    ServiceRoleHostsMap :=
      [("HDFS", [("NAMENODE", ["h1"]), ("DATANODE", ["h2"])]),
       ("YARN", [("RESOURCEMANAGER", ["h3"])])] }

/-- Cluster `c2` of the second topology: `HDFS` on `h4`. -/
def inventoryC2 : Inventory :=
  { ClusterName := "c2"
    Hosts := [h4]
    ServiceHostsMap := [("HDFS", ["h4"])]
    ServiceRoleHostsMap := [("HDFS", [("NAMENODE", ["h4"]), ("DATANODE", ["h4"])])] }

/-- Cluster membership of the second topology: `h1`, `h2`, `h3` belong to `c1` and `h4`
to `c2`; any other cluster name has no member. -/
def membersWide (inventory : Inventory) (cluster : String) (cmAgents : List Host) :
    Inventory :=
  { inventory with
    ClusterName := cluster
    Hosts := cmAgents.filter fun h =>
      (cluster = "c1" ∧ h.HostName ∈ ["h1", "h2", "h3"]) ∨
        (cluster = "c2" ∧ h.HostName = "h4") }

/-- Second topology: clusters `c1` (hosts `h1`, `h2`, `h3`) and `c2` (host `h4`). -/
def remoteWide : Remote Unit where
  ListHosts := [h1, h2, h3, h4]
  GetDeployment := ()
  GetInventoryWithHostsForCluster := membersWide
  CreateInventoriesFromDeploymentsAndHosts := fun _ _ => [inventoryWide, inventoryC2]

end Scenario

/-! ## Lemmas on the final intersection step -/

theorem containsHost_go (l : List String) (x : String) (b : Bool) :
    l.foldl (fun acc fh => if fh = x then true else acc) b = (b || decide (x ∈ l)) := by
  induction l generalizing b with
  | nil => simp
  | cons y ys ih =>
    rw [List.foldl_cons, ih]
    by_cases h : y = x
    · subst h; simp
    · have h2 : ¬ x = y := fun e => h e.symm
      simp [h, h2]

theorem containsHost_eq (l : List String) (x : String) :
    containsHost l x = decide (x ∈ l) := by
  unfold containsHost
  rw [containsHost_go]
  simp

theorem fillHost_hosts (filter : Filter) (m : Maps) (h : Host) :
    (fillHost filter m h).hosts = m.hosts := by
  unfold fillHost
  dsimp only
  split_ifs <;> rfl

theorem fillHost_finalHosts (filter : Filter) (m : Maps) (h : Host) :
    (fillHost filter m h).finalHosts =
      if Spec.selects filter m.hosts h then insert h.IPAddress m.finalHosts
      else m.finalHosts := by
  unfold fillHost Spec.selects
  rw [containsHost_eq]
  by_cases hH : filter.Hosts = []
  · by_cases hc : m.hosts = ∅
    · simp [hH, hc]
    · have hpos : 0 < m.hosts.card := Finset.card_pos.mpr (Finset.nonempty_iff_ne_empty.mpr hc)
      simp only [hH, List.length_nil, gt_iff_lt, lt_self_iff_false, false_and, if_false, hpos,
        if_true, true_or, true_and, hc, false_or]
      by_cases h1 : h.HostName ∈ m.hosts <;> by_cases h2 : h.IPAddress ∈ m.hosts <;>
        simp [h1, h2]
  · have hlen : 0 < filter.Hosts.length := List.length_pos.mpr hH
    by_cases hin : h.HostName ∈ filter.Hosts
    · by_cases hc : m.hosts = ∅
      · simp [hH, hc, hin]
      · have hpos : 0 < m.hosts.card :=
          Finset.card_pos.mpr (Finset.nonempty_iff_ne_empty.mpr hc)
        simp only [gt_iff_lt, hlen, true_and, hin, decide_True, Bool.true_eq_false, if_false,
          hpos, if_true, hH, false_or, hc]
        by_cases h1 : h.HostName ∈ m.hosts <;> by_cases h2 : h.IPAddress ∈ m.hosts <;>
          simp [h1, h2]
    · simp [hH, hin, hlen]

theorem calculateAndFillFinalHosts_hosts (cmAgents : List Host) (filter : Filter) (m : Maps) :
    (calculateAndFillFinalHosts cmAgents filter m).hosts = m.hosts := by
  unfold calculateAndFillFinalHosts
  induction cmAgents generalizing m with
  | nil => rfl
  | cons h hs ih => rw [List.foldl_cons, ih, fillHost_hosts]

theorem mem_calculateAndFillFinalHosts (cmAgents : List Host) (filter : Filter) (m : Maps)
    (a : String) :
    a ∈ (calculateAndFillFinalHosts cmAgents filter m).finalHosts ↔
      a ∈ m.finalHosts ∨ ∃ h ∈ cmAgents, Spec.selects filter m.hosts h ∧ h.IPAddress = a := by
  unfold calculateAndFillFinalHosts
  induction cmAgents generalizing m with
  | nil => simp
  | cons h hs ih =>
    rw [List.foldl_cons, ih, fillHost_hosts, fillHost_finalHosts]
    by_cases hs1 : Spec.selects filter m.hosts h
    · simp only [hs1, if_true, Finset.mem_insert, List.mem_cons, exists_eq_or_imp, true_and]
      constructor
      · rintro ((rfl | h1) | h2)
        · exact Or.inr (Or.inl rfl)
        · exact Or.inl h1
        · exact Or.inr (Or.inr h2)
      · rintro (h1 | h1 | h2)
        · exact Or.inl (Or.inr h1)
        · exact Or.inl (Or.inl h1.symm)
        · exact Or.inr h2
    · simp [hs1]

/-- An optional value that is present and whose content is `S` is `some S`. -/
theorem eq_some_of_getD {o : Option (Finset String)} {S : Finset String}
    (h1 : o.isSome = true) (h2 : o.getD ∅ = S) : o = some S := by
  cases o with
  | none => simp at h1
  | some x => simpa using h2

/-! ## The final intersection step (C10) -/

/-- C10: after `calculateAndFillFinalHosts` the accumulator holds its previous contents
together with the addresses of exactly those hosts `h` of `cmAgents` for which
(`filter.Hosts` is empty or `h.HostName` is an element of `filter.Hosts`) and (`hosts` is
empty, or contains `h.HostName`, or contains `h.IPAddress`); no previously present address
is removed, and the membership set `hosts` is unchanged. -/
theorem C10_calculateAndFillFinalHosts (cmAgents : List Host) (filter : Filter)
    (hosts finalHosts : Finset String) :
    (∀ a : String,
      a ∈ (calculateAndFillFinalHosts cmAgents filter ⟨hosts, finalHosts⟩).finalHosts ↔
        (a ∈ finalHosts ∨
          ∃ h ∈ cmAgents, h.IPAddress = a ∧
            (filter.Hosts = [] ∨ h.HostName ∈ filter.Hosts) ∧
            (hosts = ∅ ∨ h.HostName ∈ hosts ∨ h.IPAddress ∈ hosts))) ∧
    finalHosts ⊆ (calculateAndFillFinalHosts cmAgents filter ⟨hosts, finalHosts⟩).finalHosts ∧
    (calculateAndFillFinalHosts cmAgents filter ⟨hosts, finalHosts⟩).hosts = hosts := by
  refine ⟨?_, ?_, ?_⟩
  · intro a
    rw [mem_calculateAndFillFinalHosts]
    unfold Spec.selects
    constructor
    · rintro (h | ⟨h, hm, hs, rfl⟩)
      · exact Or.inl h
      · exact Or.inr ⟨h, hm, rfl, hs⟩
    · rintro (h | ⟨h, hm, rfl, hs⟩)
      · exact Or.inl h
      · exact Or.inr ⟨h, hm, hs, rfl⟩
  · intro a ha
    rw [mem_calculateAndFillFinalHosts]
    exact Or.inl ha
  · exact calculateAndFillFinalHosts_hosts cmAgents filter ⟨hosts, finalHosts⟩

/-! ## The branches that need no membership set (C1, C2, C3) -/

/-- C1: for every CM server `c` and every filter with `Server = true`, whatever the other
fields hold, `GetFilteredHosts` returns the set containing exactly `c.Hostname`, and it
fetches nothing. -/
theorem C1_server_dominates {D : Type} (env : Remote D) (c : CMServer) (filter : Filter)
    (hServer : filter.Server = true) :
    (GetFilteredHosts env c filter).result = some {c.Hostname} ∧
      (GetFilteredHosts env c filter).fetches = [] := by
  unfold GetFilteredHosts
  simp [hServer]

/-- Witness of C1: a filter with `Server = true` and every other selector populated
resolves to the controller's own address. -/
theorem C1_server_dominates_witness :
    (GetFilteredHosts Scenario.remote Scenario.controller
        { Hosts := ["h1"], Clusters := ["c1"], Services := ["HDFS"], Roles := ["DATANODE"],
          Server := true }).result = some {"cm.example.com"} ∧
      (GetFilteredHosts Scenario.remote Scenario.controller
        { Hosts := ["h1"], Clusters := ["c1"], Services := ["HDFS"], Roles := ["DATANODE"],
          Server := true }).fetches = [] :=
  C1_server_dominates Scenario.remote Scenario.controller
    { Hosts := ["h1"], Clusters := ["c1"], Services := ["HDFS"], Roles := ["DATANODE"],
      Server := true } rfl

/-- C2: for every filter with `Server = false` and `Hosts`, `Clusters`, `Services`, `Roles`
all empty, `GetFilteredHosts` returns exactly the set of the `IPAddress` values of all
fetched hosts (default-open law). -/
theorem C2_default_open {D : Type} (env : Remote D) (c : CMServer) (filter : Filter)
    (hServer : filter.Server = false) (hHosts : filter.Hosts = [])
    (hClusters : filter.Clusters = []) (hServices : filter.Services = [])
    (hRoles : filter.Roles = []) :
    (GetFilteredHosts env c filter).result =
      some (env.ListHosts.map Host.IPAddress).toFinset := by
  unfold GetFilteredHosts
  simp only [hServer, hHosts, hClusters, hServices, hRoles, List.length_nil, gt_iff_lt,
    lt_self_iff_false, if_false, Bool.false_eq_true, Option.some.injEq]
  ext a
  rw [mem_calculateAndFillFinalHosts]
  simp [Spec.selects, hHosts]

/-- Witness of C2: on the first topology the empty filter resolves to the addresses of
both fetched hosts. -/
theorem C2_default_open_witness :
    (GetFilteredHosts Scenario.remote Scenario.controller {}).result =
      some {"10.0.0.1", "10.0.0.2"} :=
  (C2_default_open Scenario.remote Scenario.controller {} rfl rfl rfl rfl rfl).trans
    (congrArg some (by decide))

/-- C3: for every filter with `Server = false` and non-empty `Hosts`, `GetFilteredHosts`
returns exactly the set of the `IPAddress` values of the fetched hosts whose `HostName` is
literally an element of `filter.Hosts` (a host whose name is not in `Hosts` contributes
nothing, whatever its address), and the outcome is the same for every value of
`filter.Clusters`. -/
theorem C3_hosts_branch {D : Type} (env : Remote D) (c : CMServer) (filter : Filter)
    (hServer : filter.Server = false) (hHosts : filter.Hosts ≠ []) :
    (GetFilteredHosts env c filter).result =
        some ((env.ListHosts.filter fun h => decide (h.HostName ∈ filter.Hosts)).map
          Host.IPAddress).toFinset ∧
      ∀ clusters : List String,
        (GetFilteredHosts env c { filter with Clusters := clusters }).result =
          (GetFilteredHosts env c filter).result := by
  have hlen : 0 < filter.Hosts.length := List.length_pos.mpr hHosts
  have key : ∀ f : Filter, f.Server = false → f.Hosts = filter.Hosts →
      (GetFilteredHosts env c f).result =
        some ((env.ListHosts.filter fun h => decide (h.HostName ∈ filter.Hosts)).map
          Host.IPAddress).toFinset := by
    intro f hS hH
    unfold GetFilteredHosts
    simp only [hS, hH, hlen, gt_iff_lt, if_true, if_false, Bool.false_eq_true,
      Option.some.injEq]
    ext a
    rw [mem_calculateAndFillFinalHosts]
    simp only [Spec.selects, hH, hHosts, false_or, true_or, and_true, Finset.not_mem_empty,
      List.mem_toFinset, List.mem_map, List.mem_filter, decide_eq_true_eq]
    constructor
    · rintro ⟨h, hm, hn, rfl⟩
      exact ⟨h, ⟨hm, hn⟩, rfl⟩
    · rintro ⟨h, ⟨hm, hn⟩, rfl⟩
      exact ⟨h, hm, hn, rfl⟩
  refine ⟨key filter hServer rfl, ?_⟩
  intro clusters
  rw [key filter hServer rfl, key { filter with Clusters := clusters } hServer rfl]

/-- Witness of C3: on the second topology the filter names `h1` and the address of `h2`;
only the address of `h1` is returned, and the cluster constraint `c2` (to which `h1` does
not belong) changes nothing. -/
theorem C3_hosts_branch_witness :
    (GetFilteredHosts Scenario.remoteWide Scenario.controller
        { Hosts := ["h1", "10.0.0.2"], Clusters := ["c2"] }).result = some {"10.0.0.1"} ∧
      ∀ clusters : List String,
        (GetFilteredHosts Scenario.remoteWide Scenario.controller
          { Hosts := ["h1", "10.0.0.2"], Clusters := clusters }).result =
        (GetFilteredHosts Scenario.remoteWide Scenario.controller
          { Hosts := ["h1", "10.0.0.2"], Clusters := ["c2"] }).result :=
  ⟨(C3_hosts_branch Scenario.remoteWide Scenario.controller
      { Hosts := ["h1", "10.0.0.2"], Clusters := ["c2"] } rfl (by decide)).1.trans
      (congrArg some (by decide)),
    (C3_hosts_branch Scenario.remoteWide Scenario.controller
      { Hosts := ["h1", "10.0.0.2"], Clusters := ["c2"] } rfl (by decide)).2⟩

/-! ## `strings.Split` and `CreateFilter` (C9) -/

theorem splitChars_pieces (sep : Char) (cs : List Char) :
    ∃ p ps, splitChars sep cs = p :: ps ∧ p ++ ps.flatMap (fun q => sep :: q) = cs ∧
      ps.length = cs.count sep ∧ ∀ q ∈ p :: ps, sep ∉ q := by
  induction cs with
  | nil => exact ⟨[], [], rfl, rfl, rfl, by simp⟩
  | cons c cs ih =>
    obtain ⟨p, ps, hsplit, hjoin, hlen, hfree⟩ := ih
    by_cases hc : c = sep
    · refine ⟨[], p :: ps, ?_, ?_, ?_, ?_⟩
      · simp [splitChars, hc, hsplit]
      · simp only [List.nil_append, List.flatMap_cons, List.cons_append, List.append_assoc]
        rw [hc, hjoin]
      · simp [hc, hlen]
      · intro q hq
        rcases List.mem_cons.mp hq with rfl | hq
        · simp
        · exact hfree q hq
    · refine ⟨c :: p, ps, ?_, ?_, ?_, ?_⟩
      · simp [splitChars, hc, hsplit]
      · simp only [List.cons_append]
        rw [hjoin]
      · rw [hlen, List.count_cons]
        simp [hc]
      · intro q hq
        rcases List.mem_cons.mp hq with rfl | hq
        · intro hmem
          rcases List.mem_cons.mp hmem with h | h
          · exact hc h.symm
          · exact hfree p (List.mem_cons_self _ _) h
        · exact hfree q (List.mem_cons_of_mem _ hq)

theorem intercalate_go_data (sep : String) (l : List String) (acc : String) :
    (String.intercalate.go acc sep l).data =
      acc.data ++ l.flatMap (fun a => sep.data ++ a.data) := by
  induction l generalizing acc with
  | nil => simp [String.intercalate.go]
  | cons a as ih =>
    simp [String.intercalate.go, ih, String.data_append, List.append_assoc]

theorem Split_length (s : String) (sep : Char) :
    (Split s sep).length = s.data.count sep + 1 := by
  obtain ⟨p, ps, hsplit, -, hlen, -⟩ := splitChars_pieces sep s.data
  simp [Split, hsplit, hlen]

theorem Split_intercalate (s : String) (sep : Char) :
    (String.singleton sep).intercalate (Split s sep) = s := by
  obtain ⟨p, ps, hsplit, hjoin, -, -⟩ := splitChars_pieces sep s.data
  apply String.ext
  simp only [Split, hsplit, List.map_cons, String.intercalate, intercalate_go_data]
  rw [← hjoin]
  congr 1
  clear hsplit hjoin
  induction ps with
  | nil => rfl
  | cons q qs ih =>
    simp only [List.map_cons, List.flatMap_cons, ih]
    rfl

theorem Split_sep_free (s : String) (sep : Char) :
    ∀ p ∈ Split s sep, sep ∉ p.data := by
  obtain ⟨p, ps, hsplit, -, -, hfree⟩ := splitChars_pieces sep s.data
  intro q hq
  simp only [Split, hsplit, List.mem_map] at hq
  obtain ⟨r, hr, rfl⟩ := hq
  exact hfree r hr

theorem utf8ByteSize_pos_iff (s : String) : s.utf8ByteSize > 0 ↔ s ≠ "" := by
  cases s with
  | mk l =>
    cases l with
    | nil => simp [String.utf8ByteSize, String.utf8ByteSize.go]
    | cons c cs =>
      have hc := Char.utf8Size_pos c
      have hne : (String.mk (c :: cs)) ≠ "" := by
        intro h
        have := congrArg String.data h
        simp at this
      simp only [String.utf8ByteSize, String.utf8ByteSize.go, gt_iff_lt, ne_eq, hne,
        not_false_eq_true, iff_true]
      omega

/-- The test `len(s) > 0` of `CreateFilter` tells whether `s` is the empty string. -/
theorem ite_utf8ByteSize {α : Type} (s : String) (a b : α) :
    (if s.utf8ByteSize > 0 then a else b) = if s = "" then b else a := by
  by_cases h : s = ""
  · have h0 : ¬ s.utf8ByteSize > 0 := fun hp => (utf8ByteSize_pos_iff s).mp hp h
    rw [if_neg h0, if_pos h]
  · rw [if_pos ((utf8ByteSize_pos_iff s).mpr h), if_neg h]

/-- C9: `CreateFilter` returns a filter with `Server = cmServer` in which each of
`Clusters`, `Services`, `Roles`, `Hosts` depends only on its own input string: the empty
sequence when that string is empty, otherwise `Split` of that string on the comma; and
`Split` of any string on the comma is the ordered sequence of the comma-free substrings
between its commas: it has (number of commas + 1) elements, none of them contains a comma,
and joining it with "," gives back the string. -/
theorem C9_CreateFilter (clusterFilter serviceFilter rolesFilter hostFilter : String)
    (cmServer : Bool) :
    (CreateFilter clusterFilter serviceFilter rolesFilter hostFilter cmServer).Server
        = cmServer ∧
      (CreateFilter clusterFilter serviceFilter rolesFilter hostFilter cmServer).Clusters
        = (if clusterFilter = "" then [] else Split clusterFilter ',') ∧
      (CreateFilter clusterFilter serviceFilter rolesFilter hostFilter cmServer).Services
        = (if serviceFilter = "" then [] else Split serviceFilter ',') ∧
      (CreateFilter clusterFilter serviceFilter rolesFilter hostFilter cmServer).Roles
        = (if rolesFilter = "" then [] else Split rolesFilter ',') ∧
      (CreateFilter clusterFilter serviceFilter rolesFilter hostFilter cmServer).Hosts
        = (if hostFilter = "" then [] else Split hostFilter ',') ∧
      ∀ s : String,
        (Split s ',').length = s.data.count ',' + 1 ∧
          ",".intercalate (Split s ',') = s ∧
          ∀ piece : String, piece ∈ Split s ',' → ',' ∉ piece.data := by
  refine ⟨?_, ?_, ?_, ?_, ?_, ?_⟩
  · simp only [CreateFilter]
  · simp only [CreateFilter, ite_utf8ByteSize]
    split_ifs <;> rfl
  · simp only [CreateFilter, ite_utf8ByteSize]
    split_ifs <;> rfl
  · simp only [CreateFilter, ite_utf8ByteSize]
    split_ifs <;> rfl
  · simp only [CreateFilter, ite_utf8ByteSize]
    split_ifs <;> rfl
  · intro s
    exact ⟨Split_length s ',', Split_intercalate s ',', Split_sep_free s ','⟩

/-! ## Lemmas on the loops that build the membership set -/

theorem addHosts_hosts (names : List String) (m : Maps) :
    (addHosts names m).hosts = m.hosts ∪ names.toFinset := by
  unfold addHosts
  induction names generalizing m with
  | nil => simp
  | cons n ns ih =>
    rw [List.foldl_cons, ih]
    ext x
    simp only [Finset.mem_union, Finset.mem_insert, List.toFinset_cons]
    tauto

theorem addHosts_finalHosts (names : List String) (m : Maps) :
    (addHosts names m).finalHosts = m.finalHosts := by
  unfold addHosts
  induction names generalizing m with
  | nil => rfl
  | cons n ns ih => rw [List.foldl_cons, ih]

/-- The loop over the entries of a map that adds the hosts of the selected keys. -/
theorem entries_fold_hosts (p : String → Bool) (entries : List (String × List String))
    (m : Maps) (x : String) :
    x ∈ (entries.foldl (fun m entry => if p entry.1 then addHosts entry.2 m else m) m).hosts ↔
      x ∈ m.hosts ∨ ∃ entry ∈ entries, p entry.1 = true ∧ x ∈ entry.2 := by
  induction entries generalizing m with
  | nil => simp
  | cons e es ih =>
    rw [List.foldl_cons, ih]
    by_cases hp : p e.1 = true
    · simp only [hp, if_true, addHosts_hosts, Finset.mem_union, List.mem_toFinset,
        List.mem_cons, exists_eq_or_imp, true_and]
      rw [or_assoc]
    · simp [hp]

theorem entries_fold_finalHosts (p : String → Bool) (entries : List (String × List String))
    (m : Maps) :
    (entries.foldl (fun m entry => if p entry.1 then addHosts entry.2 m else m) m).finalHosts =
      m.finalHosts := by
  induction entries generalizing m with
  | nil => rfl
  | cons e es ih =>
    rw [List.foldl_cons, ih]
    split_ifs
    · exact addHosts_finalHosts _ _
    · rfl

theorem SliceContains_iff (str : String) (slice : List String) :
    SliceContains str slice = true ↔ str ∈ slice := by
  simp [SliceContains]

theorem servicesLoop_hosts (filter : Filter) (hClusters : filter.Clusters = [])
    (inventories : List Inventory) (m : Maps) (x : String) :
    x ∈ (servicesLoop filter inventories m).hosts ↔
      x ∈ m.hosts ∨ ∃ inventory ∈ inventories, ∃ entry ∈ inventory.ServiceHostsMap,
        entry.1 ∈ filter.Services ∧ x ∈ entry.2 := by
  unfold servicesLoop
  induction inventories generalizing m with
  | nil => simp
  | cons inv invs ih =>
    rw [List.foldl_cons, ih]
    have hstep : x ∈ (servicesStep filter m inv).hosts ↔
        x ∈ m.hosts ∨ ∃ entry ∈ inv.ServiceHostsMap, entry.1 ∈ filter.Services ∧ x ∈ entry.2 := by
      unfold servicesStep
      simp only [hClusters, List.length_nil, gt_iff_lt, lt_self_iff_false, false_and, if_false]
      refine Iff.trans
        (entries_fold_hosts (fun k => SliceContains k filter.Services) _ m x) ?_
      simp only [SliceContains_iff]
    rw [hstep]
    simp only [List.mem_cons, exists_eq_or_imp]
    rw [or_assoc]

theorem servicesLoop_finalHosts (filter : Filter) (inventories : List Inventory) (m : Maps) :
    (servicesLoop filter inventories m).finalHosts = m.finalHosts := by
  unfold servicesLoop
  induction inventories generalizing m with
  | nil => rfl
  | cons inv invs ih =>
    rw [List.foldl_cons, ih]
    unfold servicesStep
    split_ifs
    · rfl
    · exact entries_fold_finalHosts (fun k => SliceContains k filter.Services) _ _

/-- The roles loop does not panic when the filter names at least one service, and then
it is a plain fold. -/
theorem rolesLoop_cons_service (filter : Filter) (hClusters : filter.Clusters = [])
    (s : String) (rest : List String) (hServices : filter.Services = s :: rest)
    (inventories : List Inventory) (m : Maps) :
    rolesLoop filter inventories m =
      some (inventories.foldl (fun m inventory =>
        (GoMap.index inventory.ServiceRoleHostsMap s []).foldl
          (fun m entry => if SliceContains entry.1 filter.Roles then addHosts entry.2 m else m) m)
        m) := by
  unfold rolesLoop
  induction inventories generalizing m with
  | nil => rfl
  | cons inv invs ih =>
    rw [List.foldlM_cons, List.foldl_cons, ← ih]
    simp [rolesStep, hClusters, hServices]

/-- The roles loop panics on the first inventory when the filter names no service. -/
theorem rolesLoop_no_service (filter : Filter) (hClusters : filter.Clusters = [])
    (hServices : filter.Services = []) (inventory : Inventory) (inventories : List Inventory)
    (m : Maps) :
    rolesLoop filter (inventory :: inventories) m = none := by
  unfold rolesLoop
  rw [List.foldlM_cons]
  simp [rolesStep, hClusters, hServices]

theorem rolesFold_hosts (roles : List String) (s : String) (inventories : List Inventory)
    (m : Maps) (x : String) :
    x ∈ (inventories.foldl (fun m inventory =>
        (GoMap.index inventory.ServiceRoleHostsMap s []).foldl
          (fun m entry => if SliceContains entry.1 roles then addHosts entry.2 m else m) m)
        m).hosts ↔
      x ∈ m.hosts ∨ ∃ inventory ∈ inventories,
        ∃ entry ∈ GoMap.index inventory.ServiceRoleHostsMap s [],
          entry.1 ∈ roles ∧ x ∈ entry.2 := by
  induction inventories generalizing m with
  | nil => simp
  | cons inv invs ih =>
    rw [List.foldl_cons, ih]
    have hstep : x ∈ ((GoMap.index inv.ServiceRoleHostsMap s []).foldl
        (fun m entry => if SliceContains entry.1 roles then addHosts entry.2 m else m) m).hosts ↔
        x ∈ m.hosts ∨ ∃ entry ∈ GoMap.index inv.ServiceRoleHostsMap s [],
          entry.1 ∈ roles ∧ x ∈ entry.2 := by
      refine Iff.trans (entries_fold_hosts (fun k => SliceContains k roles) _ m x) ?_
      simp only [SliceContains_iff]
    rw [hstep]
    simp only [List.mem_cons, exists_eq_or_imp]
    rw [or_assoc]

theorem rolesFold_finalHosts (roles : List String) (s : String) (inventories : List Inventory)
    (m : Maps) :
    (inventories.foldl (fun m inventory =>
        (GoMap.index inventory.ServiceRoleHostsMap s []).foldl
          (fun m entry => if SliceContains entry.1 roles then addHosts entry.2 m else m) m)
        m).finalHosts = m.finalHosts := by
  induction inventories generalizing m with
  | nil => rfl
  | cons inv invs ih =>
    rw [List.foldl_cons, ih]
    exact entries_fold_finalHosts (fun k => SliceContains k roles) _ m

/-- In a map with pairwise distinct keys, an entry is found by looking up its key. -/
theorem GoMap.lookup_of_mem {V : Type} (m : List (String × V)) (hWF : GoMap.WF m)
    (k : String) (v : V) (hmem : (k, v) ∈ m) : m.lookup k = some v := by
  induction m with
  | nil => simp at hmem
  | cons e es ih =>
    obtain ⟨k', v'⟩ := e
    unfold GoMap.WF at hWF
    simp only [List.map_cons, List.nodup_cons, List.mem_map, not_exists, not_and] at hWF
    rcases List.mem_cons.mp hmem with h | h
    · cases h
      simp [List.lookup_cons]
    · have hne : k ≠ k' := by
        intro e
        exact hWF.1 (k, v) h e
      have hb : (k == k') = false := by simpa using hne
      rw [List.lookup_cons, hb]
      exact ih hWF.2 h

/-- What a lookup finds is an entry of the map. -/
theorem GoMap.mem_of_lookup {V : Type} (m : List (String × V)) (k : String) (v : V)
    (h : m.lookup k = some v) : (k, v) ∈ m := by
  induction m with
  | nil => simp at h
  | cons e es ih =>
    obtain ⟨k', v'⟩ := e
    rw [List.lookup_cons] at h
    by_cases hk : k = k'
    · subst hk
      simp only [beq_self_eq_true, Option.some.injEq] at h
      subst h
      exact List.mem_cons_self _ _
    · have hb : (k == k') = false := by simpa using hk
      rw [hb] at h
      exact List.mem_cons_of_mem _ (ih h)

/-- Ranging over a well-formed map and keeping the keys in `keys` reaches the same hosts
as indexing the map with every element of `keys`. -/
theorem GoMap.range_iff_index (m : List (String × List String)) (hWF : GoMap.WF m)
    (keys : List String) (x : String) :
    (∃ entry ∈ m, entry.1 ∈ keys ∧ x ∈ entry.2) ↔ ∃ r ∈ keys, x ∈ GoMap.index m r [] := by
  constructor
  · rintro ⟨⟨k, v⟩, hmem, hk, hx⟩
    refine ⟨k, hk, ?_⟩
    simp only [GoMap.index, GoMap.lookup_of_mem m hWF k v hmem, Option.getD_some]
    exact hx
  · rintro ⟨r, hr, hx⟩
    unfold GoMap.index at hx
    cases hl : m.lookup r with
    | none => simp [hl] at hx
    | some v =>
      rw [hl] at hx
      exact ⟨(r, v), GoMap.mem_of_lookup m r v hl, hr, hx⟩

theorem mem_rolesMembership (inventories : List Inventory) (s : String) (roles : List String)
    (x : String) :
    x ∈ Spec.rolesMembership inventories s roles ↔
      ∃ inventory ∈ inventories, ∃ r ∈ roles,
        x ∈ GoMap.index (GoMap.index inventory.ServiceRoleHostsMap s []) r [] := by
  simp [Spec.rolesMembership]

/-! ## The branches of `GetFilteredHosts` that build a membership set -/

theorem GetFilteredHosts_roles {D : Type} (env : Remote D) (c : CMServer) (filter : Filter)
    (hServer : filter.Server = false) (hHosts : filter.Hosts = [])
    (hClusters : filter.Clusters = []) (hRoles : filter.Roles ≠ []) (m : Maps)
    (hm : rolesLoop filter
      (env.CreateInventoriesFromDeploymentsAndHosts env.GetDeployment env.ListHosts)
      ⟨∅, ∅⟩ = some m) :
    (GetFilteredHosts env c filter).result =
        some (calculateAndFillFinalHosts env.ListHosts filter m).finalHosts ∧
      (GetFilteredHosts env c filter).fetches = [Fetch.ListHosts, Fetch.GetDeployment] := by
  have hlen : 0 < filter.Roles.length := List.length_pos.mpr hRoles
  unfold GetFilteredHosts
  simp only [hServer, hHosts, hClusters, hlen, hm, List.length_nil, gt_iff_lt,
    lt_self_iff_false, if_false, if_true, Bool.false_eq_true, and_self]

theorem GetFilteredHosts_services {D : Type} (env : Remote D) (c : CMServer) (filter : Filter)
    (hServer : filter.Server = false) (hHosts : filter.Hosts = [])
    (hClusters : filter.Clusters = []) (hRoles : filter.Roles = [])
    (hServices : filter.Services ≠ []) :
    (GetFilteredHosts env c filter).result =
        some (calculateAndFillFinalHosts env.ListHosts filter
          (servicesLoop filter
            (env.CreateInventoriesFromDeploymentsAndHosts env.GetDeployment env.ListHosts)
            ⟨∅, ∅⟩)).finalHosts ∧
      (GetFilteredHosts env c filter).fetches = [Fetch.ListHosts, Fetch.GetDeployment] := by
  have hlen : 0 < filter.Services.length := List.length_pos.mpr hServices
  unfold GetFilteredHosts
  simp only [hServer, hHosts, hClusters, hRoles, hlen, List.length_nil, gt_iff_lt,
    lt_self_iff_false, if_false, if_true, Bool.false_eq_true, and_self]

/-- With no host filter and a membership set that is already non-empty, a larger
membership set selects at least the same addresses. -/
theorem calculateAndFillFinalHosts_mono (cmAgents : List Host) (f f' : Filter)
    (hH' : f'.Hosts = []) (m m' : Maps)
    (hsub : m.hosts ⊆ m'.hosts) (hne : m.hosts ≠ ∅) (hfin : m.finalHosts ⊆ m'.finalHosts) :
    (calculateAndFillFinalHosts cmAgents f m).finalHosts ⊆
      (calculateAndFillFinalHosts cmAgents f' m').finalHosts := by
  intro a ha
  rw [mem_calculateAndFillFinalHosts] at ha ⊢
  rcases ha with ha | ⟨h, hmem, hsel, rfl⟩
  · exact Or.inl (hfin ha)
  · refine Or.inr ⟨h, hmem, ?_, rfl⟩
    unfold Spec.selects at hsel ⊢
    refine ⟨Or.inl hH', ?_⟩
    rcases hsel.2 with h0 | h1 | h2
    · exact absurd h0 hne
    · exact Or.inr (Or.inl (hsub h1))
    · exact Or.inr (Or.inr (hsub h2))

/-! ## The roles branch (C5) -/

/-- C5: for every filter with `Server = false`, `Hosts` and `Clusters` empty, non-empty
`Roles` and `Services = [s]`, and for every fetched host collection and list of inventories
(whose role maps are Go maps, that is, have distinct keys), `GetFilteredHosts` returns what
the final intersection step yields for the membership set `M` = union, over all inventories
and all roles `r` in `filter.Roles`, of `ServiceRoleHostsMap[s][r]`; when `M` is non-empty
that is exactly the addresses of the fetched hosts whose name or address is in `M`. -/
theorem C5_roles_branch {D : Type} (env : Remote D) (c : CMServer) (filter : Filter)
    (s : String)
    (hServer : filter.Server = false) (hHosts : filter.Hosts = [])
    (hClusters : filter.Clusters = []) (hRoles : filter.Roles ≠ [])
    (hServices : filter.Services = [s])
    (hWF : ∀ inventory ∈
        env.CreateInventoriesFromDeploymentsAndHosts env.GetDeployment env.ListHosts,
      GoMap.WF (GoMap.index inventory.ServiceRoleHostsMap s [])) :
    (GetFilteredHosts env c filter).result =
        some (calculateAndFillFinalHosts env.ListHosts filter
          ⟨Spec.rolesMembership
            (env.CreateInventoriesFromDeploymentsAndHosts env.GetDeployment env.ListHosts)
            s filter.Roles, ∅⟩).finalHosts ∧
      (Spec.rolesMembership
          (env.CreateInventoriesFromDeploymentsAndHosts env.GetDeployment env.ListHosts)
          s filter.Roles ≠ ∅ →
        ∀ a : String,
          a ∈ (calculateAndFillFinalHosts env.ListHosts filter
            ⟨Spec.rolesMembership
              (env.CreateInventoriesFromDeploymentsAndHosts env.GetDeployment env.ListHosts)
              s filter.Roles, ∅⟩).finalHosts ↔
          ∃ h ∈ env.ListHosts, h.IPAddress = a ∧
            (h.HostName ∈ Spec.rolesMembership
                (env.CreateInventoriesFromDeploymentsAndHosts env.GetDeployment env.ListHosts)
                s filter.Roles ∨
              h.IPAddress ∈ Spec.rolesMembership
                (env.CreateInventoriesFromDeploymentsAndHosts env.GetDeployment env.ListHosts)
                s filter.Roles)) := by
  generalize hinv :
    env.CreateInventoriesFromDeploymentsAndHosts env.GetDeployment env.ListHosts = inventories
    at hWF
  have hloop := rolesLoop_cons_service filter hClusters s [] hServices inventories ⟨∅, ∅⟩
  have hmaps : inventories.foldl (fun m inventory =>
        (GoMap.index inventory.ServiceRoleHostsMap s []).foldl
          (fun m entry => if SliceContains entry.1 filter.Roles then addHosts entry.2 m else m) m)
        (⟨∅, ∅⟩ : Maps) = ⟨Spec.rolesMembership inventories s filter.Roles, ∅⟩ := by
    have h1 := rolesFold_finalHosts filter.Roles s inventories ⟨∅, ∅⟩
    have h2 : (inventories.foldl (fun m inventory =>
        (GoMap.index inventory.ServiceRoleHostsMap s []).foldl
          (fun m entry => if SliceContains entry.1 filter.Roles then addHosts entry.2 m else m) m)
        (⟨∅, ∅⟩ : Maps)).hosts = Spec.rolesMembership inventories s filter.Roles := by
      ext x
      rw [rolesFold_hosts, mem_rolesMembership]
      simp only [Finset.not_mem_empty, false_or]
      constructor
      · rintro ⟨inv, hinvmem, hex⟩
        exact ⟨inv, hinvmem, (GoMap.range_iff_index _ (hWF inv hinvmem) _ x).mp hex⟩
      · rintro ⟨inv, hinvmem, hex⟩
        exact ⟨inv, hinvmem, (GoMap.range_iff_index _ (hWF inv hinvmem) _ x).mpr hex⟩
    generalize inventories.foldl (fun m inventory =>
        (GoMap.index inventory.ServiceRoleHostsMap s []).foldl
          (fun m entry => if SliceContains entry.1 filter.Roles then addHosts entry.2 m else m) m)
        (⟨∅, ∅⟩ : Maps) = r at h1 h2
    cases r
    simp only at h1 h2
    rw [h1, h2]
  rw [hmaps] at hloop
  have hres := (GetFilteredHosts_roles env c filter hServer hHosts hClusters hRoles _
    (by rw [hinv]; exact hloop)).1
  refine ⟨hres, ?_⟩
  intro hne a
  rw [mem_calculateAndFillFinalHosts]
  simp only [Spec.selects, hHosts, hne, Finset.not_mem_empty, false_or, true_or, true_and]
  constructor
  · rintro ⟨h, hm, hs, rfl⟩
    exact ⟨h, hm, rfl, hs⟩
  · rintro ⟨h, hm, rfl, hs⟩
    exact ⟨h, hm, hs, rfl⟩

/-- Witness of C5: cluster `c1`, service `HDFS`, `NAMENODE` on `h1` (10.0.0.1) and
`DATANODE` on `h2` (10.0.0.2); the filter `{Services: [HDFS], Roles: [DATANODE]}` has the
membership set `{h2}` and resolves to `{10.0.0.2}`. -/
theorem C5_roles_branch_witness :
    (GetFilteredHosts Scenario.remote Scenario.controller
        { Services := ["HDFS"], Roles := ["DATANODE"] }).result = some {"10.0.0.2"} ∧
      Spec.rolesMembership [Scenario.inventoryC1] "HDFS" ["DATANODE"] = {"h2"} :=
  ⟨(C5_roles_branch Scenario.remote Scenario.controller
      { Services := ["HDFS"], Roles := ["DATANODE"] } "HDFS" rfl rfl rfl (by decide) rfl
      (by decide)).1.trans (congrArg some (by decide)),
    by decide⟩

/-! ## Union monotonicity (C7) -/

/-- Counterexample to C7 as stated. Roles branch, first topology: `{Services: [HDFS],
Roles: [GATEWAY]}` matches no host and resolves default-open to both addresses; adding the
role `DATANODE` shrinks the resolved set to `{10.0.0.2}`. Services branch, second topology:
`{Services: [ZOOKEEPER]}` resolves to all four addresses; adding the service `YARN` shrinks
the resolved set to `{10.0.0.3}`. -/
theorem C7_union_monotone_counterexample :
    ((GetFilteredHosts Scenario.remote Scenario.controller
          { Services := ["HDFS"], Roles := ["GATEWAY"] }).result
        = some {"10.0.0.1", "10.0.0.2"} ∧
      (GetFilteredHosts Scenario.remote Scenario.controller
          { Services := ["HDFS"], Roles := ["GATEWAY", "DATANODE"] }).result
        = some {"10.0.0.2"} ∧
      ¬ (({"10.0.0.1", "10.0.0.2"} : Finset String) ⊆ {"10.0.0.2"})) ∧
    ((GetFilteredHosts Scenario.remoteWide Scenario.controller
          { Services := ["ZOOKEEPER"] }).result
        = some {"10.0.0.1", "10.0.0.2", "10.0.0.3", "10.0.0.4"} ∧
      (GetFilteredHosts Scenario.remoteWide Scenario.controller
          { Services := ["ZOOKEEPER", "YARN"] }).result
        = some {"10.0.0.3"} ∧
      ¬ (({"10.0.0.1", "10.0.0.2", "10.0.0.3", "10.0.0.4"} : Finset String) ⊆
          {"10.0.0.3"})) :=
  ⟨⟨eq_some_of_getD (by decide) (by decide), eq_some_of_getD (by decide) (by decide),
      by decide⟩,
    ⟨eq_some_of_getD (by decide) (by decide), eq_some_of_getD (by decide) (by decide),
      by decide⟩⟩

/-- Every address the final step puts into an empty accumulator is the address of a fetched
host. -/
theorem calculateAndFillFinalHosts_subset_all (cmAgents : List Host) (f : Filter) (m : Maps)
    (hfin : m.finalHosts = ∅) :
    (calculateAndFillFinalHosts cmAgents f m).finalHosts ⊆
      (cmAgents.map Host.IPAddress).toFinset := by
  intro a ha
  rw [mem_calculateAndFillFinalHosts, hfin] at ha
  rcases ha with ha | ⟨h, hmem, -, rfl⟩
  · simp at ha
  · simp only [List.mem_toFinset, List.mem_map]
    exact ⟨h, hmem, rfl⟩

/-- With no host filter, an empty membership set and an empty accumulator, the final step
yields the address of every fetched host. -/
theorem calculateAndFillFinalHosts_default_open (cmAgents : List Host) (f : Filter) (m : Maps)
    (hH : f.Hosts = []) (hM : m.hosts = ∅) (hfin : m.finalHosts = ∅) :
    (calculateAndFillFinalHosts cmAgents f m).finalHosts =
      (cmAgents.map Host.IPAddress).toFinset := by
  ext a
  rw [mem_calculateAndFillFinalHosts, hfin, hM]
  simp [Spec.selects, hH]

/-- When the membership set grows from `m.hosts` to `mAfter.hosts`, the set resolved from
the larger one is a superset exactly when the smaller one is non-empty or the larger one
still resolves to every fetched host. -/
theorem calculateAndFillFinalHosts_superset_iff (cmAgents : List Host) (f fAfter : Filter)
    (hH : f.Hosts = []) (hHAfter : fAfter.Hosts = []) (m mAfter : Maps)
    (hfin : m.finalHosts = ∅) (hfinAfter : mAfter.finalHosts = ∅)
    (hsub : m.hosts ⊆ mAfter.hosts) :
    ((calculateAndFillFinalHosts cmAgents f m).finalHosts ⊆
        (calculateAndFillFinalHosts cmAgents fAfter mAfter).finalHosts ↔
      (m.hosts ≠ ∅ ∨
        (cmAgents.map Host.IPAddress).toFinset ⊆
          (calculateAndFillFinalHosts cmAgents fAfter mAfter).finalHosts)) ∧
    (mAfter.hosts = ∅ →
      (cmAgents.map Host.IPAddress).toFinset ⊆
        (calculateAndFillFinalHosts cmAgents fAfter mAfter).finalHosts) := by
  refine ⟨⟨?_, ?_⟩, ?_⟩
  · intro hS
    by_cases hM : m.hosts = ∅
    · right
      rw [← calculateAndFillFinalHosts_default_open cmAgents f m hH hM hfin]
      exact hS
    · exact Or.inl hM
  · rintro (hM | hAll)
    · apply calculateAndFillFinalHosts_mono cmAgents f fAfter hHAfter m mAfter hsub hM
      rw [hfin]
      exact Finset.empty_subset _
    · exact (calculateAndFillFinalHosts_subset_all cmAgents f m hfin).trans hAll
  · intro hM
    rw [calculateAndFillFinalHosts_default_open cmAgents fAfter mAfter hHAfter hM hfinAfter]

/-- C7, amended: for every topology and every filter that resolves through the roles
branch or the services branch (`Server = false`, `Hosts` and `Clusters` empty), adding one
more role name to `Roles` (roles branch), respectively one more service name to `Services`
(services branch), at any position, yields a resolved set that is a superset of the set
resolved before the addition if and only if the membership set before the addition is
non-empty or the set resolved after the addition contains the address of every fetched
host; the latter is the case whenever the membership set after the addition is still
empty. -/
theorem C7_union_monotone_amended {D : Type} (env : Remote D) (c : CMServer)
    (services pre post : List String) (x : String) (hne : pre ++ post ≠ []) :
    (∀ m : Maps,
      rolesLoop { Services := services, Roles := pre ++ post }
        (env.CreateInventoriesFromDeploymentsAndHosts env.GetDeployment env.ListHosts)
        ⟨∅, ∅⟩ = some m →
      ∃ (mAfter : Maps) (S SAfter : Finset String),
        rolesLoop { Services := services, Roles := pre ++ x :: post }
          (env.CreateInventoriesFromDeploymentsAndHosts env.GetDeployment env.ListHosts)
          ⟨∅, ∅⟩ = some mAfter ∧
        (GetFilteredHosts env c { Services := services, Roles := pre ++ post }).result
          = some S ∧
        (GetFilteredHosts env c { Services := services, Roles := pre ++ x :: post }).result
          = some SAfter ∧
        (S ⊆ SAfter ↔
          (m.hosts ≠ ∅ ∨ (env.ListHosts.map Host.IPAddress).toFinset ⊆ SAfter)) ∧
        (mAfter.hosts = ∅ → (env.ListHosts.map Host.IPAddress).toFinset ⊆ SAfter)) ∧
    (∃ S SAfter : Finset String,
      (GetFilteredHosts env c { Services := pre ++ post }).result = some S ∧
      (GetFilteredHosts env c { Services := pre ++ x :: post }).result = some SAfter ∧
      (S ⊆ SAfter ↔
        ((servicesLoop { Services := pre ++ post }
            (env.CreateInventoriesFromDeploymentsAndHosts env.GetDeployment env.ListHosts)
            ⟨∅, ∅⟩).hosts ≠ ∅ ∨
          (env.ListHosts.map Host.IPAddress).toFinset ⊆ SAfter)) ∧
      ((servicesLoop { Services := pre ++ x :: post }
          (env.CreateInventoriesFromDeploymentsAndHosts env.GetDeployment env.ListHosts)
          ⟨∅, ∅⟩).hosts = ∅ →
        (env.ListHosts.map Host.IPAddress).toFinset ⊆ SAfter)) := by
  have hneAfter : pre ++ x :: post ≠ [] := by simp
  have hsubl : ∀ y, y ∈ pre ++ post → y ∈ pre ++ x :: post := by
    intro y hy
    simp only [List.mem_append, List.mem_cons] at hy ⊢
    tauto
  constructor
  · intro m hm
    have finish : ∀ mAfter : Maps,
        rolesLoop { Services := services, Roles := pre ++ x :: post }
          (env.CreateInventoriesFromDeploymentsAndHosts env.GetDeployment env.ListHosts)
          ⟨∅, ∅⟩ = some mAfter →
        m.finalHosts = ∅ → mAfter.finalHosts = ∅ → m.hosts ⊆ mAfter.hosts →
        ∃ (mAfter : Maps) (S SAfter : Finset String),
          rolesLoop { Services := services, Roles := pre ++ x :: post }
            (env.CreateInventoriesFromDeploymentsAndHosts env.GetDeployment env.ListHosts)
            ⟨∅, ∅⟩ = some mAfter ∧
          (GetFilteredHosts env c { Services := services, Roles := pre ++ post }).result
            = some S ∧
          (GetFilteredHosts env c { Services := services, Roles := pre ++ x :: post }).result
            = some SAfter ∧
          (S ⊆ SAfter ↔
            (m.hosts ≠ ∅ ∨ (env.ListHosts.map Host.IPAddress).toFinset ⊆ SAfter)) ∧
          (mAfter.hosts = ∅ → (env.ListHosts.map Host.IPAddress).toFinset ⊆ SAfter) := by
      intro mAfter hmAfter hfin hfinAfter hsub
      have key := calculateAndFillFinalHosts_superset_iff env.ListHosts
        { Services := services, Roles := pre ++ post }
        { Services := services, Roles := pre ++ x :: post } rfl rfl m mAfter hfin hfinAfter hsub
      exact ⟨mAfter, _, _, hmAfter,
        (GetFilteredHosts_roles env c { Services := services, Roles := pre ++ post }
          rfl rfl rfl hne m hm).1,
        (GetFilteredHosts_roles env c { Services := services, Roles := pre ++ x :: post }
          rfl rfl rfl hneAfter mAfter hmAfter).1, key.1, key.2⟩
    cases services with
    | nil =>
      cases hI : env.CreateInventoriesFromDeploymentsAndHosts env.GetDeployment
          env.ListHosts with
      | nil =>
        rw [hI] at hm
        simp only [rolesLoop, List.foldlM_nil, pure, Option.some.injEq] at hm
        subst hm
        rw [hI] at finish
        exact finish ⟨∅, ∅⟩ rfl rfl rfl (Finset.Subset.refl _)
      | cons inv invs =>
        rw [hI, rolesLoop_no_service _ rfl rfl] at hm
        cases hm
    | cons s rest =>
      have h1 := rolesLoop_cons_service { Services := s :: rest, Roles := pre ++ post }
        rfl s rest rfl
        (env.CreateInventoriesFromDeploymentsAndHosts env.GetDeployment env.ListHosts) ⟨∅, ∅⟩
      have h2 := rolesLoop_cons_service { Services := s :: rest, Roles := pre ++ x :: post }
        rfl s rest rfl
        (env.CreateInventoriesFromDeploymentsAndHosts env.GetDeployment env.ListHosts) ⟨∅, ∅⟩
      rw [hm] at h1
      have hmEq := Option.some.inj h1
      refine finish _ h2 ?_ ?_ ?_
      · rw [hmEq, rolesFold_finalHosts]
      · rw [rolesFold_finalHosts]
      · intro y hy
        rw [hmEq, rolesFold_hosts] at hy
        rw [rolesFold_hosts]
        rcases hy with hy | ⟨inv, hinv, e, he, hr, hy⟩
        · exact Or.inl hy
        · exact Or.inr ⟨inv, hinv, e, he, hsubl _ hr, hy⟩
  · have key := calculateAndFillFinalHosts_superset_iff env.ListHosts
      { Services := pre ++ post } { Services := pre ++ x :: post } rfl rfl
      (servicesLoop { Services := pre ++ post }
        (env.CreateInventoriesFromDeploymentsAndHosts env.GetDeployment env.ListHosts) ⟨∅, ∅⟩)
      (servicesLoop { Services := pre ++ x :: post }
        (env.CreateInventoriesFromDeploymentsAndHosts env.GetDeployment env.ListHosts) ⟨∅, ∅⟩)
      (servicesLoop_finalHosts _ _ _) (servicesLoop_finalHosts _ _ _)
      (by
        intro y hy
        rw [servicesLoop_hosts _ rfl] at hy
        rw [servicesLoop_hosts _ rfl]
        rcases hy with hy | ⟨inv, hinv, e, he, hr, hy⟩
        · exact Or.inl hy
        · exact Or.inr ⟨inv, hinv, e, he, hsubl _ hr, hy⟩)
    exact ⟨_, _,
      (GetFilteredHosts_services env c { Services := pre ++ post } rfl rfl rfl rfl hne).1,
      (GetFilteredHosts_services env c { Services := pre ++ x :: post }
        rfl rfl rfl rfl hneAfter).1, key.1, key.2⟩

/-- Witness of the amended C7. Roles branch, first topology: `{Services: [HDFS], Roles:
[NAMENODE]}` has the non-empty membership set `{h1}`, so adding `DATANODE` yields a
superset. Services branch, second topology: `{Services: [ZOOKEEPER]}` has an empty
membership set, and adding `KAFKA` leaves it empty, so the set resolved after the addition
still contains every fetched address and is a superset. -/
theorem C7_union_monotone_amended_witness :
    (∃ S SAfter : Finset String,
      (GetFilteredHosts Scenario.remote Scenario.controller
        { Services := ["HDFS"], Roles := ["NAMENODE"] ++ [] }).result = some S ∧
      (GetFilteredHosts Scenario.remote Scenario.controller
        { Services := ["HDFS"], Roles := ["NAMENODE"] ++ "DATANODE" :: [] }).result
          = some SAfter ∧
      S ⊆ SAfter) ∧
    (∃ S SAfter : Finset String,
      (GetFilteredHosts Scenario.remoteWide Scenario.controller
        { Services := ["ZOOKEEPER"] ++ [] }).result = some S ∧
      (GetFilteredHosts Scenario.remoteWide Scenario.controller
        { Services := ["ZOOKEEPER"] ++ "KAFKA" :: [] }).result = some SAfter ∧
      S ⊆ SAfter) := by
  constructor
  · obtain ⟨-, S, SAfter, -, h1, h2, hiff, -⟩ :=
      (C7_union_monotone_amended Scenario.remote Scenario.controller ["HDFS"] ["NAMENODE"] []
        "DATANODE" (by decide)).1 _ rfl
    exact ⟨S, SAfter, h1, h2, hiff.mpr (Or.inl (by decide))⟩
  · obtain ⟨S, SAfter, h1, h2, hiff, hempty⟩ :=
      (C7_union_monotone_amended Scenario.remoteWide Scenario.controller [] ["ZOOKEEPER"] []
        "KAFKA" (by decide)).2
    exact ⟨S, SAfter, h1, h2, hiff.mpr (Or.inr (hempty (by decide)))⟩

/-! ## What the clusters branch computes in general -/

theorem clusterStep_hosts {D : Type} (env : Remote D) (cmAgents : List Host) (filter : Filter)
    (m : Maps) (cluster : String) :
    (clusterStep env cmAgents filter m cluster).hosts =
      m.hosts ∪ ((env.GetInventoryWithHostsForCluster {} cluster cmAgents).Hosts.map
        Host.HostName).toFinset := by
  unfold clusterStep
  simp only [calculateAndFillFinalHosts_hosts]
  generalize (env.GetInventoryWithHostsForCluster {} cluster cmAgents).Hosts = members
  induction members generalizing m with
  | nil => simp
  | cons h hs ih =>
    rw [List.foldl_cons, ih]
    ext x
    simp only [Finset.mem_union, Finset.mem_insert, List.map_cons, List.toFinset_cons]
    tauto

theorem clusterStep_finalHosts {D : Type} (env : Remote D) (cmAgents : List Host)
    (filter : Filter) (m : Maps) (cluster : String) (a : String) :
    a ∈ (clusterStep env cmAgents filter m cluster).finalHosts ↔
      a ∈ m.finalHosts ∨ ∃ h ∈ cmAgents,
        Spec.selects filter
          (m.hosts ∪ ((env.GetInventoryWithHostsForCluster {} cluster cmAgents).Hosts.map
            Host.HostName).toFinset) h ∧ h.IPAddress = a := by
  have hh := clusterStep_hosts env cmAgents filter m cluster
  unfold clusterStep at hh ⊢
  simp only [calculateAndFillFinalHosts_hosts] at hh
  rw [mem_calculateAndFillFinalHosts, hh]
  have hfin : ∀ (members : List Host) (m : Maps),
      (members.foldl (fun m host => { m with hosts := insert host.HostName m.hosts }) m).finalHosts
        = m.finalHosts := by
    intro members
    induction members with
    | nil => intro m; rfl
    | cons h hs ih => intro m; rw [List.foldl_cons, ih]
  rw [hfin]

theorem selects_mono (filter : Filter) (M M' : Finset String) (hsub : M ⊆ M') (hne : M ≠ ∅)
    (h : Host) (hsel : Spec.selects filter M h) : Spec.selects filter M' h := by
  unfold Spec.selects at hsel ⊢
  refine ⟨hsel.1, ?_⟩
  rcases hsel.2 with h0 | h1 | h2
  · exact absurd h0 hne
  · exact Or.inr (Or.inl (hsub h1))
  · exact Or.inr (Or.inr (hsub h2))

/-- Once the membership set is non-empty after the first cluster, the loop over the
clusters ends with the union as membership set and with the addresses the final step
selects for that union. -/
theorem clusters_fold {D : Type} (env : Remote D) (cmAgents : List Host) (filter : Filter)
    (clusters : List String) (cluster : String) (m : Maps)
    (hne : m.hosts ∪ ((env.GetInventoryWithHostsForCluster {} cluster cmAgents).Hosts.map
      Host.HostName).toFinset ≠ ∅) :
    ((cluster :: clusters).foldl (clusterStep env cmAgents filter) m).hosts =
        m.hosts ∪ Spec.clustersMembership env cmAgents (cluster :: clusters) ∧
      ∀ a : String,
        a ∈ ((cluster :: clusters).foldl (clusterStep env cmAgents filter) m).finalHosts ↔
          a ∈ m.finalHosts ∨ ∃ h ∈ cmAgents,
            Spec.selects filter
              (m.hosts ∪ Spec.clustersMembership env cmAgents (cluster :: clusters)) h ∧
              h.IPAddress = a := by
  induction clusters generalizing cluster m with
  | nil =>
    simp only [List.foldl_cons, List.foldl_nil, Spec.clustersMembership, List.flatMap_cons,
      List.flatMap_nil, List.append_nil]
    exact ⟨clusterStep_hosts env cmAgents filter m cluster,
      clusterStep_finalHosts env cmAgents filter m cluster⟩
  | cons c2 rest ih =>
    have hU : Spec.clustersMembership env cmAgents (cluster :: c2 :: rest) =
        ((env.GetInventoryWithHostsForCluster {} cluster cmAgents).Hosts.map
          Host.HostName).toFinset ∪ Spec.clustersMembership env cmAgents (c2 :: rest) := by
      simp [Spec.clustersMembership, List.toFinset_append]
    have hh := clusterStep_hosts env cmAgents filter m cluster
    have hne1 : (clusterStep env cmAgents filter m cluster).hosts ∪
        ((env.GetInventoryWithHostsForCluster {} c2 cmAgents).Hosts.map
          Host.HostName).toFinset ≠ ∅ := by
      rw [hh]
      intro h0
      apply hne
      rw [Finset.union_eq_empty] at h0
      exact h0.1
    obtain ⟨ih1, ih2⟩ := ih c2 (clusterStep env cmAgents filter m cluster) hne1
    rw [List.foldl_cons]
    refine ⟨?_, ?_⟩
    · rw [ih1, hh, hU, Finset.union_assoc]
    · intro a
      rw [ih2, clusterStep_finalHosts, hh, hU, Finset.union_assoc, or_assoc]
      constructor
      · rintro (h1 | ⟨h, hm, hs, rfl⟩ | h3)
        · exact Or.inl h1
        · refine Or.inr ⟨h, hm, selects_mono filter _ _ ?_ hne h hs, rfl⟩
          intro y hy
          simp only [Finset.mem_union] at hy ⊢
          tauto
        · exact Or.inr h3
      · rintro (h1 | h3)
        · exact Or.inl h1
        · exact Or.inr (Or.inr h3)

/-- When the first cluster named in the filter has at least one member host, the clusters
branch returns what the final step yields when run once on the union of the member host
names of all named clusters. -/
theorem clusters_branch_of_first_cluster_nonempty {D : Type} (env : Remote D) (c : CMServer)
    (filter : Filter) (cluster : String) (rest : List String)
    (hServer : filter.Server = false) (hHosts : filter.Hosts = [])
    (hClusters : filter.Clusters = cluster :: rest)
    (hFirst : (env.GetInventoryWithHostsForCluster {} cluster env.ListHosts).Hosts ≠ []) :
    (GetFilteredHosts env c filter).result =
      some (calculateAndFillFinalHosts env.ListHosts filter
        ⟨Spec.clustersMembership env env.ListHosts filter.Clusters, ∅⟩).finalHosts := by
  have hne : (∅ : Finset String) ∪
      ((env.GetInventoryWithHostsForCluster {} cluster env.ListHosts).Hosts.map
        Host.HostName).toFinset ≠ ∅ := by
    rw [Finset.empty_union]
    intro h0
    apply hFirst
    rw [List.toFinset_eq_empty_iff] at h0
    exact List.map_eq_nil_iff.mp h0
  obtain ⟨-, h2⟩ := clusters_fold env env.ListHosts filter rest cluster ⟨∅, ∅⟩ hne
  unfold GetFilteredHosts clustersLoop
  simp only [hServer, hHosts, hClusters, List.length_nil, List.length_cons, gt_iff_lt,
    lt_self_iff_false, Nat.zero_lt_succ, if_false, if_true, Bool.false_eq_true,
    Option.some.injEq]
  ext a
  rw [h2, mem_calculateAndFillFinalHosts]
  simp only [Finset.empty_union]

/-- When the first cluster named in the filter has no member host, the clusters branch
returns the address of every fetched host, whatever the other named clusters contain. -/
theorem clusters_branch_of_first_cluster_empty {D : Type} (env : Remote D) (c : CMServer)
    (filter : Filter) (cluster : String) (rest : List String)
    (hServer : filter.Server = false) (hHosts : filter.Hosts = [])
    (hClusters : filter.Clusters = cluster :: rest)
    (hFirst : (env.GetInventoryWithHostsForCluster {} cluster env.ListHosts).Hosts = []) :
    (GetFilteredHosts env c filter).result =
      some (env.ListHosts.map Host.IPAddress).toFinset := by
  have hgrow : ∀ (cs : List String) (m : Maps),
      m.finalHosts ⊆ (cs.foldl (clusterStep env env.ListHosts filter) m).finalHosts ∧
        (cs.foldl (clusterStep env env.ListHosts filter) m).finalHosts ⊆
          m.finalHosts ∪ (env.ListHosts.map Host.IPAddress).toFinset := by
    intro cs
    induction cs with
    | nil =>
      intro m
      exact ⟨Finset.Subset.refl _, Finset.subset_union_left⟩
    | cons c1 cs ih =>
      intro m
      obtain ⟨ih1, ih2⟩ := ih (clusterStep env env.ListHosts filter m c1)
      rw [List.foldl_cons]
      constructor
      · intro a ha
        apply ih1
        rw [clusterStep_finalHosts]
        exact Or.inl ha
      · intro a ha
        have h1 := ih2 ha
        rw [Finset.mem_union, clusterStep_finalHosts] at h1
        rw [Finset.mem_union]
        rcases h1 with (h1 | ⟨h, hm, -, rfl⟩) | h1
        · exact Or.inl h1
        · exact Or.inr (by simpa using ⟨h, hm, rfl⟩)
        · exact Or.inr h1
  have hfirst : (clusterStep env env.ListHosts filter ⟨∅, ∅⟩ cluster).finalHosts =
      (env.ListHosts.map Host.IPAddress).toFinset := by
    ext a
    rw [clusterStep_finalHosts]
    simp [hFirst, Spec.selects, hHosts]
  obtain ⟨h1, h2⟩ := hgrow rest (clusterStep env env.ListHosts filter ⟨∅, ∅⟩ cluster)
  rw [hfirst, Finset.union_self] at h2
  rw [hfirst] at h1
  unfold GetFilteredHosts clustersLoop
  simp only [hServer, hHosts, hClusters, List.length_nil, List.length_cons, gt_iff_lt,
    lt_self_iff_false, Nat.zero_lt_succ, if_false, if_true, Bool.false_eq_true,
    Option.some.injEq, List.foldl_cons]
  exact Finset.Subset.antisymm h2 h1

/-- The final step reads only the field `Hosts` of the filter. -/
theorem calculateAndFillFinalHosts_congr (cmAgents : List Host) (f f' : Filter)
    (h : f.Hosts = f'.Hosts) (m : Maps) :
    calculateAndFillFinalHosts cmAgents f m = calculateAndFillFinalHosts cmAgents f' m := by
  have hstep : fillHost f = fillHost f' := by
    funext m a
    unfold fillHost
    rw [h]
  unfold calculateAndFillFinalHosts
  rw [hstep]

/-- In the clusters branch the outcome is the same whatever `Services` and `Roles` hold:
the service and role names of the filter are never read. -/
theorem clusters_branch_ignores_services_and_roles {D : Type} (env : Remote D)
    (c : CMServer) (filter : Filter) (hServer : filter.Server = false)
    (hHosts : filter.Hosts = []) (hClusters : filter.Clusters ≠ [])
    (services roles : List String) :
    GetFilteredHosts env c { filter with Services := services, Roles := roles } =
      GetFilteredHosts env c filter := by
  obtain ⟨fHosts, fClusters, fServices, fRoles, fServer⟩ := filter
  simp only at hServer hHosts hClusters
  subst hServer hHosts
  have hlen : 0 < fClusters.length := List.length_pos.mpr hClusters
  have hstep : clusterStep env env.ListHosts
      { Hosts := [], Clusters := fClusters, Services := services, Roles := roles,
        Server := false } =
      clusterStep env env.ListHosts
        { Hosts := [], Clusters := fClusters, Services := fServices, Roles := fRoles,
          Server := false } := by
    funext m cluster
    unfold clusterStep
    exact calculateAndFillFinalHosts_congr _ _ _ rfl _
  unfold GetFilteredHosts clustersLoop
  simp only [hlen, hstep, List.length_nil, gt_iff_lt, lt_self_iff_false, if_false, if_true,
    Bool.false_eq_true]

/-! ## Where the code departs from the specification (C4, C6, C8) -/

/-- C4, the code at the failing input `{Clusters: [c0, c1]}` on the second topology, where
`c0` has no member: the union of the member host names is `{h1, h2, h3}` and the final step
run once on it yields `{10.0.0.1, 10.0.0.2, 10.0.0.3}`, but `GetFilteredHosts` runs the final
step inside the loop, the first time with the still empty membership set, and returns all
four addresses, `10.0.0.4` of `h4` in cluster `c2` included. With the cluster names in the
other order it returns the three addresses. -/
theorem C4_clusters_branch_fills_inside_loop :
    (GetFilteredHosts Scenario.remoteWide Scenario.controller
        { Clusters := ["c0", "c1"] }).result
      = some {"10.0.0.1", "10.0.0.2", "10.0.0.3", "10.0.0.4"} ∧
    Spec.clustersMembership Scenario.remoteWide Scenario.remoteWide.ListHosts ["c0", "c1"]
      = {"h1", "h2", "h3"} ∧
    (calculateAndFillFinalHosts Scenario.remoteWide.ListHosts { Clusters := ["c0", "c1"] }
        ⟨Spec.clustersMembership Scenario.remoteWide Scenario.remoteWide.ListHosts
          ["c0", "c1"], ∅⟩).finalHosts
      = {"10.0.0.1", "10.0.0.2", "10.0.0.3"} ∧
    (GetFilteredHosts Scenario.remoteWide Scenario.controller
        { Clusters := ["c1", "c0"] }).result
      = some {"10.0.0.1", "10.0.0.2", "10.0.0.3"} :=
  ⟨eq_some_of_getD (by decide) (by decide), by decide, by decide,
    eq_some_of_getD (by decide) (by decide)⟩

/-- C6, the code at the failing input `{Services: [HDFS], Clusters: [c1]}` on the second
topology: the clusters branch is taken, only the hosts are fetched, and the result is the
address of every host of `c1`, `10.0.0.3` of `h3` included, although `h3` does not run
`HDFS`. The services loop with its cluster guard, which this filter never reaches, would
select `{10.0.0.1, 10.0.0.2}`. On the first topology, where every host of `c1` runs `HDFS`,
the same filter resolves to `{10.0.0.1, 10.0.0.2}`. -/
theorem C6_cluster_with_service_ignores_service :
    (GetFilteredHosts Scenario.remoteWide Scenario.controller
        { Services := ["HDFS"], Clusters := ["c1"] }).result
      = some {"10.0.0.1", "10.0.0.2", "10.0.0.3"} ∧
    (GetFilteredHosts Scenario.remoteWide Scenario.controller
        { Services := ["HDFS"], Clusters := ["c1"] }).fetches = [Fetch.ListHosts] ∧
    "h3" ∉ GoMap.index Scenario.inventoryWide.ServiceHostsMap "HDFS" [] ∧
    "10.0.0.3" ∉ GoMap.index Scenario.inventoryWide.ServiceHostsMap "HDFS" [] ∧
    (calculateAndFillFinalHosts Scenario.remoteWide.ListHosts
        { Services := ["HDFS"], Clusters := ["c1"] }
        (servicesLoop { Services := ["HDFS"], Clusters := ["c1"] }
          [Scenario.inventoryWide, Scenario.inventoryC2] ⟨∅, ∅⟩)).finalHosts
      = {"10.0.0.1", "10.0.0.2"} ∧
    (GetFilteredHosts Scenario.remote Scenario.controller
        { Services := ["HDFS"], Clusters := ["c1"] }).result
      = some {"10.0.0.1", "10.0.0.2"} :=
  ⟨eq_some_of_getD (by decide) (by decide), by decide, by decide, by decide, by decide,
    eq_some_of_getD (by decide) (by decide)⟩

/-- C8, the code at the failing inputs on the first topology. `validateFilter` rejects the
filter with two service names and one role name, but `GetFilteredHosts` does not call it:
it fetches the hosts and the deployment and returns `{10.0.0.2}`, reading only the first
service name. For a role name without any service name, which `validateFilter` rejects as
well, `GetFilteredHosts` makes both fetches and then panics on `filter.Services[0]`. -/
theorem C8_GetFilteredHosts_does_not_validate :
    validateFilter { Services := ["HDFS", "YARN"], Roles := ["DATANODE"] }
      = Except.error "Error: use exactly 1 service filter with roles filter!" ∧
    (GetFilteredHosts Scenario.remote Scenario.controller
        { Services := ["HDFS", "YARN"], Roles := ["DATANODE"] }).fetches
      = [Fetch.ListHosts, Fetch.GetDeployment] ∧
    (GetFilteredHosts Scenario.remote Scenario.controller
        { Services := ["HDFS", "YARN"], Roles := ["DATANODE"] }).result
      = some {"10.0.0.2"} ∧
    validateFilter { Roles := ["DATANODE"] }
      = Except.error "Error: use exactly 1 service filter with roles filter!" ∧
    (GetFilteredHosts Scenario.remote Scenario.controller { Roles := ["DATANODE"] }).fetches
      = [Fetch.ListHosts, Fetch.GetDeployment] ∧
    (GetFilteredHosts Scenario.remote Scenario.controller { Roles := ["DATANODE"] }).result
      = none :=
  ⟨rfl, by decide, eq_some_of_getD (by decide) (by decide), rfl, by decide, by decide⟩

end CM
